import Mathlib

/-!
Verification of the `logstats` log-analysis pipeline
(`src/logstats/logstats.py`): a shallow embedding of the line cleaner,
the analyzer and the report computations, and theorems about them.

Python strings are modelled as Lean `String`, Python dicts (which keep
insertion order) as association lists, and the mutable `datastore`
namedtuple as a `Datastore` structure threaded through the pipeline.
-/

namespace Logstats

/-- The characters Python's default `str.split` / `str.strip` treat as
whitespace (ASCII subset). -/
def isPyWs (c : Char) : Bool :=
  c == ' ' || c == '\t' || c == '\n' || c == '\r' || c == '\x0b' || c == '\x0c'

/-- Python `str.split(maxsplit=n)` on a character list: skip leading
whitespace; while splits remain, take a maximal non-whitespace token;
once `maxsplit` splits are used, the whitespace-stripped remainder is the
final field. -/
def splitWsAux : Nat → List Char → List (List Char)
  | 0, cs =>
    match cs.dropWhile isPyWs with
    | [] => []
    | rest => [rest]
  | n + 1, cs =>
    match cs.dropWhile isPyWs with
    | [] => []
    | rest => rest.takeWhile (fun c => !isPyWs c)
        :: splitWsAux n (rest.dropWhile (fun c => !isPyWs c))

/-- `line.split(maxsplit=n)` from the source (`cleaner`, line 33). -/
def pySplitWs (s : String) (maxsplit : Nat) : List String :=
  (splitWsAux maxsplit s.data).map String.mk

/-- Drop from the right end of a list while the predicate holds. -/
def dropWhileRight (p : Char → Bool) (l : List Char) : List Char :=
  (l.reverse.dropWhile p).reverse

/-- Python `str.strip()`: remove leading and trailing whitespace. -/
def pyStrip (s : String) : String :=
  String.mk (dropWhileRight isPyWs (s.data.dropWhile isPyWs))

/-- Python `str.split("-")` on a character list: split at every `'-'`,
keeping empty pieces; always at least one piece. -/
def splitDashAux : List Char → List (List Char)
  | [] => [[]]
  | c :: cs =>
    if c = '-' then [] :: splitDashAux cs
    else
      match splitDashAux cs with
      | [] => [[c]]
      | t :: ts => (c :: t) :: ts

/-- `record[0].split("-")` from the source (`cleaner`, line 37). -/
def splitDash (s : String) : List String :=
  (splitDashAux s.data).map String.mk

/-- The `Severities` enum of the source. -/
inductive Severities where
  | INFO
  | DEBUG
  | WARNING
  | ERROR
deriving DecidableEq, Repr

/-- `Severities[sev_str]` lookup by exact member name; `none` models the
`KeyError` path of `get_sev`. -/
def get_sev (sev_str : String) : Option Severities :=
  if sev_str = "INFO" then some .INFO
  else if sev_str = "DEBUG" then some .DEBUG
  else if sev_str = "WARNING" then some .WARNING
  else if sev_str = "ERROR" then some .ERROR
  else none

/-- A cleaned log record `(charm, severity text, message)`. -/
abbrev LogRecord := String × String × String

/-- The `datastore` namedtuple: nested insertion-ordered dicts become
association lists. -/
structure Datastore where
  charm_severity_cnt : List (String × List (Severities × Nat))
  message_cnt : List ((String × Severities) × Nat)
  dropped_cnt : Nat
deriving DecidableEq, Repr

/-- The empty datastore set up in `__main__`. -/
def emptyStore : Datastore := ⟨[], [], 0⟩

/-- `d[k] += n` on an insertion-ordered dict with default value 0:
increment in place if the key exists, else append `(k, n)`. -/
def addAssoc {α : Type} [DecidableEq α] : List (α × Nat) → α → Nat → List (α × Nat)
  | [], k, n => [(k, n)]
  | (k', v) :: rest, k, n =>
    if k = k' then (k', v + n) :: rest else (k', v) :: addAssoc rest k n

/-- `d[k] += 1` (defaultdict(int) / Counter increment). -/
def bumpAssoc {α : Type} [DecidableEq α] (l : List (α × Nat)) (k : α) : List (α × Nat) :=
  addAssoc l k 1

/-- `charm_severity_cnt[charm][sev] += 1` on the nested defaultdict. -/
def bumpNested :
    List (String × List (Severities × Nat)) → String → Severities →
      List (String × List (Severities × Nat))
  | [], c, s => [(c, [(s, 1)])]
  | (c', d) :: rest, c, s =>
    if c = c' then (c', bumpAssoc d s) :: rest else (c', d) :: bumpNested rest c s

/-- One line of the `cleaner` loop body: `some record` when the line is
yielded, `none` when it is dropped. -/
def cleanLine (line : String) : Option LogRecord :=
  let record := pySplitWs line 3
  if record.length < 4 then none
  else
    let unit_field := splitDash (record.getD 0 "")
    if 3 ≤ unit_field.length ∧ unit_field.getD 0 "" = "unit" then
      some ("-".intercalate ((unit_field.drop 1).dropLast),
            record.getD 2 "", pyStrip (record.getD 3 ""))
    else none

/-- The `cleaner` generator run to completion: the records it yields and
the datastore with `dropped_cnt` bumped once per rejected line. -/
def cleaner : List String → Datastore → List LogRecord × Datastore
  | [], ds => ([], ds)
  | line :: rest, ds =>
    match cleanLine line with
    | none => cleaner rest { ds with dropped_cnt := ds.dropped_cnt + 1 }
    | some r =>
      let (rs, ds') := cleaner rest ds
      (r :: rs, ds')

/-- Truthiness test `charm_filter and charm != charm_filter` from
`analyze`: `None` and the empty string are falsy. -/
def filterSkip (charm_filter : Option String) (charm : String) : Bool :=
  match charm_filter with
  | none => false
  | some f => !f.isEmpty && charm != f

/-- The body of the `analyze` loop for a single record. -/
def analyzeStep (charm_filter : Option String) (ds : Datastore)
    (r : LogRecord) : Datastore :=
  let (charm, sev_str, msg) := r
  if filterSkip charm_filter charm then ds
  else
    match get_sev sev_str with
    | none => ds
    | some sev =>
      { ds with
        charm_severity_cnt := bumpNested ds.charm_severity_cnt charm sev
        message_cnt := bumpAssoc ds.message_cnt (msg, sev) }

/-- `analyze(records, datastore, charm_filter)`. -/
def analyze (records : List LogRecord) (ds : Datastore)
    (charm_filter : Option String) : Datastore :=
  records.foldl (analyzeStep charm_filter) ds

/-- `calc_log_stats` without the file I/O: run the cleaner over the lines
and feed its records to the analyzer, starting from a given store. -/
def calc_log_stats (lines : List String) (ds : Datastore)
    (charm_filter : Option String) : Datastore :=
  let (records, ds') := cleaner lines ds
  analyze records ds' charm_filter

/-- The whole pipeline from the empty store, as `__main__` runs it. -/
def runPipeline (lines : List String) (charm_filter : Option String) : Datastore :=
  calc_log_stats lines emptyStore charm_filter

/-- `warning_charms` from `print_report`: charms whose severity dict
contains a WARNING key, in insertion order. -/
def warning_charms (ds : Datastore) : List String :=
  (ds.charm_severity_cnt.filter
    (fun p => (List.lookup Severities.WARNING p.2).isSome)).map Prod.fst

/-- `severity_cnt` from `print_report`: totals per severity across all
charms, accumulated in iteration order into a defaultdict. -/
def severity_cnt (ds : Datastore) : List (Severities × Nat) :=
  ds.charm_severity_cnt.foldl
    (fun acc p => p.2.foldl (fun acc2 q => addAssoc acc2 q.1 q.2) acc) []

/-- The duplicate-messages section: entries of `message_cnt` with
count ≥ 2, in insertion order (`if cnt < 2: continue`). -/
def dup_messages (ds : Datastore) : List ((String × Severities) × Nat) :=
  ds.message_cnt.filter (fun p => !decide (p.2 < 2))

/-- `charm_total = sum(sev_dict.values())`. -/
def charm_total (d : List (Severities × Nat)) : Nat :=
  (d.map Prod.snd).sum

/-- The per-severity ratios `cnt / charm_total` printed for one charm,
in exact rational arithmetic. -/
def sev_ratios (d : List (Severities × Nat)) : List (Severities × ℚ) :=
  d.map (fun p => (p.1, (p.2 : ℚ) / (charm_total d : ℚ)))

/-- `overall_messages`: sum of all charm totals. -/
def overall_messages (ds : Datastore) : Nat :=
  (ds.charm_severity_cnt.map (fun p => charm_total p.2)).sum

/-- The five example input lines of the specification. -/
def exampleLines : List String :=
  [ "unit-mysql-0 2024-01-01T00:00:00 INFO starting up"
  , "unit-mysql-0 2024-01-01T00:00:01 WARNING disk low"
  , "unit-mysql-0 2024-01-01T00:00:02 WARNING disk low"
  , "badline"
  , "unit-nginx-1 2024-01-01T00:00:03 ERROR crash" ]

/-- C1: end-to-end on the five example lines with no charm filter, the
resulting store has `dropped_cnt = 1`, warning charms `["mysql"]`,
aggregate severity counts INFO=1, WARNING=2, ERROR=1, exactly one
duplicate entry `("disk low", WARNING)` with count 2, mysql per-severity
ratios INFO 1/3 and WARNING 2/3, and 4 analyzed messages in total. -/
theorem end_to_end_example :
    (runPipeline exampleLines none).dropped_cnt = 1 ∧
    warning_charms (runPipeline exampleLines none) = ["mysql"] ∧
    severity_cnt (runPipeline exampleLines none) =
      [(Severities.INFO, 1), (Severities.WARNING, 2), (Severities.ERROR, 1)] ∧
    dup_messages (runPipeline exampleLines none) =
      [(("disk low", Severities.WARNING), 2)] ∧
    sev_ratios (((runPipeline exampleLines none).charm_severity_cnt.lookup
        "mysql").getD []) =
      [(Severities.INFO, 1/3), (Severities.WARNING, 2/3)] ∧
    overall_messages (runPipeline exampleLines none) = 4 := by
  refine ⟨by decide, by decide, by decide, by decide, ?_, by decide⟩
  have h : ((runPipeline exampleLines none).charm_severity_cnt.lookup
      "mysql").getD [] = [(Severities.INFO, 1), (Severities.WARNING, 2)] := by
    decide
  rw [h]
  norm_num [sev_ratios, charm_total]

/-- C2: a record whose severity text resolves to no enum member is
skipped by the analyzer: the whole store (charm counts, message counts
and `dropped_cnt`) is left unchanged, so unresolved severities are
tallied nowhere. -/
theorem unresolved_severity_skipped (cf : Option String) (ds : Datastore)
    (charm sev_str msg : String) (h : get_sev sev_str = none) :
    analyzeStep cf ds (charm, sev_str, msg) = ds := by
  simp only [analyzeStep, h]
  split <;> rfl

/-- C2 witness: `CRITICAL` resolves to no severity and leaves the empty
store unchanged. -/
theorem unresolved_severity_skipped_witness :
    get_sev "CRITICAL" = none ∧
    analyzeStep none emptyStore ("mysql", "CRITICAL", "x") = emptyStore :=
  ⟨by decide,
   unresolved_severity_skipped none emptyStore "mysql" "CRITICAL" "x" (by decide)⟩

/-- C7: with an active (non-empty) charm filter, a record whose charm
differs from the filter leaves the store entirely unchanged; and on the
example input with filter `nginx` only the single ERROR record is
counted while the mysql records leave the store untouched. -/
theorem charm_filter_skips (f charm : String) (ds : Datastore)
    (sev_str msg : String) (hf : f ≠ "") (hc : charm ≠ f) :
    analyzeStep (some f) ds (charm, sev_str, msg) = ds ∧
    runPipeline exampleLines (some "nginx") =
      ⟨[("nginx", [(Severities.ERROR, 1)])],
       [(("crash", Severities.ERROR), 1)], 1⟩ := by
  refine ⟨?_, by decide⟩
  have h1 : f.isEmpty = false := by
    cases h : f.isEmpty
    · rfl
    · exact absurd ((String.isEmpty_iff f).mp h) hf
  have hskip : filterSkip (some f) charm = true := by
    simp [filterSkip, h1, bne_iff_ne, hc]
  simp [analyzeStep, hskip]

/-- C7 witness: filter `nginx` skips a mysql record, and the filtered
example run yields the nginx-only store. -/
theorem charm_filter_skips_witness :
    analyzeStep (some "nginx") emptyStore ("mysql", "INFO", "x") = emptyStore ∧
    runPipeline exampleLines (some "nginx") =
      ⟨[("nginx", [(Severities.ERROR, 1)])],
       [(("crash", Severities.ERROR), 1)], 1⟩ :=
  charm_filter_skips "nginx" "mysql" emptyStore "INFO" "x"
    (by decide) (by decide)

/-- C9: an empty-string charm filter is falsy in Python, so it skips no
record and the analyzer behaves exactly as with no filter at all. -/
theorem empty_filter_like_none :
    (∀ charm, filterSkip (some "") charm = false) ∧
    ∀ (records : List LogRecord) (ds : Datastore),
      analyze records ds (some "") = analyze records ds none := by
  have hstep : ∀ (ds : Datastore) (r : LogRecord),
      analyzeStep (some "") ds r = analyzeStep none ds r := by
    intro ds r
    obtain ⟨c, s, m⟩ := r
    simp [analyzeStep, filterSkip, show String.isEmpty "" = true from rfl]
  refine ⟨fun charm => by
    simp [filterSkip, show String.isEmpty "" = true from rfl], fun records => ?_⟩
  induction records with
  | nil => intro ds; rfl
  | cons r rest ih =>
    intro ds
    show List.foldl (analyzeStep (some "")) (analyzeStep (some "") ds r) rest = _
    rw [hstep]
    exact ih (analyzeStep none ds r)

/-- C3: a line is rejected by the cleaner exactly when it has fewer than
4 whitespace fields, or its first field has fewer than 3 `-`-separated
sub-parts, or the first sub-part is not `unit`; a rejected line bumps
`dropped_cnt` by exactly 1 and emits no record, any other line emits
exactly one record and leaves `dropped_cnt` alone. -/
theorem cleaner_per_line (line : String) (rest : List String) (ds : Datastore) :
    if (pySplitWs line 3).length < 4 ∨
        (splitDash ((pySplitWs line 3).getD 0 "")).length < 3 ∨
        (splitDash ((pySplitWs line 3).getD 0 "")).getD 0 "" ≠ "unit" then
      cleaner (line :: rest) ds =
        cleaner rest { ds with dropped_cnt := ds.dropped_cnt + 1 }
    else
      ∃ r, cleaner (line :: rest) ds =
        (r :: (cleaner rest ds).1, (cleaner rest ds).2) := by
  by_cases h1 : (pySplitWs line 3).length < 4
  · rw [if_pos (Or.inl h1)]
    have hcl : cleanLine line = none := by
      simp only [cleanLine]
      rw [if_pos h1]
    simp [cleaner, hcl]
  · by_cases h2 : 3 ≤ (splitDash ((pySplitWs line 3).getD 0 "")).length ∧
        (splitDash ((pySplitWs line 3).getD 0 "")).getD 0 "" = "unit"
    · rw [if_neg]
      · have hcl : cleanLine line =
            some ("-".intercalate
                (((splitDash ((pySplitWs line 3).getD 0 "")).drop 1).dropLast),
              (pySplitWs line 3).getD 2 "",
              pyStrip ((pySplitWs line 3).getD 3 "")) := by
          simp only [cleanLine]
          rw [if_neg h1, if_pos h2]
        rcases hrec : cleaner rest ds with ⟨rs, ds'⟩
        exact ⟨("-".intercalate
            (((splitDash ((pySplitWs line 3).getD 0 "")).drop 1).dropLast),
          (pySplitWs line 3).getD 2 "",
          pyStrip ((pySplitWs line 3).getD 3 "")),
          by simp [cleaner, hcl, hrec]⟩
      · push_neg
        exact ⟨Nat.not_lt.mp h1, h2.1, h2.2⟩
    · rw [if_pos]
      · have hcl : cleanLine line = none := by
          simp only [cleanLine]
          rw [if_neg h1, if_neg h2]
        simp [cleaner, hcl]
      · rcases not_and_or.mp h2 with h | h
        · exact Or.inr (Or.inl (Nat.not_le.mp h))
        · exact Or.inr (Or.inr h)

/-- C8: on a well-formed line the emitted charm is the `-`-join of the
first field's sub-parts with the leading `unit` and the trailing id
chopped off, preserving hyphens inside the charm name. -/
theorem charm_extraction (line : String)
    (h1 : 4 ≤ (pySplitWs line 3).length)
    (h2 : 3 ≤ (splitDash ((pySplitWs line 3).getD 0 "")).length)
    (h3 : (splitDash ((pySplitWs line 3).getD 0 "")).getD 0 "" = "unit") :
    cleanLine line = some
      ("-".intercalate (((splitDash ((pySplitWs line 3).getD 0 "")).drop 1).dropLast),
       (pySplitWs line 3).getD 2 "",
       pyStrip ((pySplitWs line 3).getD 3 "")) := by
  have h1' : ¬ (pySplitWs line 3).length < 4 := Nat.not_lt.mpr h1
  simp only [cleanLine]
  rw [if_neg h1', if_pos ⟨h2, h3⟩]

/-- C8 witness: `unit-mycharm-name-42 x INFO hello` yields the charm
`mycharm-name`. -/
theorem charm_extraction_witness :
    cleanLine "unit-mycharm-name-42 x INFO hello" =
      some ("mycharm-name", "INFO", "hello") := by
  have h := charm_extraction "unit-mycharm-name-42 x INFO hello"
    (by decide) (by decide) (by decide)
  exact h.trans (by decide)

/-- Incrementing a key in an insertion-ordered counter makes its looked-up
value one more than before (0 when absent). -/
theorem lookup_bumpAssoc {α : Type} [BEq α] [LawfulBEq α] [DecidableEq α]
    (l : List (α × Nat)) (k : α) :
    List.lookup k (bumpAssoc l k) = some ((List.lookup k l).getD 0 + 1) := by
  induction l with
  | nil => simp [bumpAssoc, addAssoc, List.lookup]
  | cons p rest ih =>
    obtain ⟨k', v⟩ := p
    by_cases h : k = k'
    · subst h
      simp [bumpAssoc, addAssoc, List.lookup]
    · have hb : (k == k') = false := beq_eq_false_iff_ne.mpr h
      simpa [bumpAssoc, addAssoc, h, hb, List.lookup] using ih

/-- C6: two analyzed records with the same message text and the same
resolved severity bump the same `message_cnt` entry whatever their
charms are, and the duplicate-messages section lists exactly the
entries with count ≥ 2, keeping the store's insertion order. -/
theorem duplicate_message_counting (ds : Datastore) (c1 c2 sev_str msg : String)
    (sev : Severities) (h : get_sev sev_str = some sev) :
    List.lookup (msg, sev)
      (analyzeStep none (analyzeStep none ds (c1, sev_str, msg))
        (c2, sev_str, msg)).message_cnt =
      some ((List.lookup (msg, sev) ds.message_cnt).getD 0 + 2) ∧
    (∀ e, e ∈ dup_messages ds ↔ e ∈ ds.message_cnt ∧ 2 ≤ e.2) ∧
    (dup_messages ds).Sublist ds.message_cnt := by
  refine ⟨?_, fun e => ?_, List.filter_sublist _⟩
  · have hstep : ∀ (c : String) (ds' : Datastore),
        (analyzeStep none ds' (c, sev_str, msg)).message_cnt =
          bumpAssoc ds'.message_cnt (msg, sev) := by
      intro c ds'
      simp [analyzeStep, filterSkip, h]
    rw [hstep, hstep, lookup_bumpAssoc, lookup_bumpAssoc]
    rfl
  · simp [dup_messages, List.mem_filter, Nat.not_lt]

/-- C6 witness: two `disk low` WARNING records from different charms
drive the shared entry to count 2. -/
theorem duplicate_message_counting_witness :
    List.lookup ("disk low", Severities.WARNING)
      (analyzeStep none (analyzeStep none emptyStore
          ("mysql", "WARNING", "disk low"))
        ("nginx", "WARNING", "disk low")).message_cnt =
      some ((List.lookup ("disk low", Severities.WARNING)
        emptyStore.message_cnt).getD 0 + 2) ∧
    (∀ e, e ∈ dup_messages emptyStore ↔ e ∈ emptyStore.message_cnt ∧ 2 ≤ e.2) ∧
    (dup_messages emptyStore).Sublist emptyStore.message_cnt :=
  duplicate_message_counting emptyStore "mysql" "nginx" "WARNING" "disk low"
    Severities.WARNING (by decide)

/-- `addAssoc` adds exactly `n` to the total of a severity dict. -/
theorem charm_total_addAssoc (d : List (Severities × Nat)) (k : Severities) (n : Nat) :
    charm_total (addAssoc d k n) = charm_total d + n := by
  induction d with
  | nil => simp [addAssoc, charm_total]
  | cons p rest ih =>
    obtain ⟨k', v⟩ := p
    by_cases h : k = k'
    · subst h
      simp [addAssoc, charm_total]
      omega
    · simp [addAssoc, h, charm_total] at ih ⊢
      omega

/-- `bumpNested` keeps every charm's total count at least 1. -/
theorem inv_bumpNested (l : List (String × List (Severities × Nat)))
    (c : String) (s : Severities)
    (h : ∀ p ∈ l, 1 ≤ charm_total p.2) :
    ∀ p ∈ bumpNested l c s, 1 ≤ charm_total p.2 := by
  induction l with
  | nil =>
    intro p hp
    simp [bumpNested] at hp
    subst hp
    simp [charm_total]
  | cons q rest ih =>
    obtain ⟨c', d⟩ := q
    intro p hp
    by_cases hc : c = c'
    · simp [bumpNested, hc] at hp
      rcases hp with hp | hp
      · subst hp
        have := charm_total_addAssoc d s 1
        simp [bumpAssoc]
        omega
      · exact h p (List.mem_cons_of_mem _ hp)
    · simp [bumpNested, hc] at hp
      rcases hp with hp | hp
      · subst hp
        exact h (c', d) (List.mem_cons_self _ _)
      · exact ih (fun q hq => h q (List.mem_cons_of_mem _ hq)) p hp

/-- A single analyzer step keeps every charm's total count at least 1. -/
theorem inv_analyzeStep (cf : Option String) (ds : Datastore) (r : LogRecord)
    (h : ∀ p ∈ ds.charm_severity_cnt, 1 ≤ charm_total p.2) :
    ∀ p ∈ (analyzeStep cf ds r).charm_severity_cnt, 1 ≤ charm_total p.2 := by
  obtain ⟨c, sv, m⟩ := r
  by_cases hf : filterSkip cf c
  · simpa [analyzeStep, hf] using h
  · cases hs : get_sev sv with
    | none => simpa [analyzeStep, hf, hs] using h
    | some sev =>
      intro p hp
      have hrw : (analyzeStep cf ds (c, sv, m)).charm_severity_cnt =
          bumpNested ds.charm_severity_cnt c sev := by
        simp [analyzeStep, hf, hs]
      rw [hrw] at hp
      exact inv_bumpNested _ _ _ h p hp

/-- The analyzer keeps every charm's total count at least 1. -/
theorem inv_analyze (records : List LogRecord) (cf : Option String)
    (ds : Datastore)
    (h : ∀ p ∈ ds.charm_severity_cnt, 1 ≤ charm_total p.2) :
    ∀ p ∈ (analyze records ds cf).charm_severity_cnt, 1 ≤ charm_total p.2 := by
  induction records generalizing ds with
  | nil => exact h
  | cons r rest ih =>
    have hrw : analyze (r :: rest) ds cf =
        analyze rest (analyzeStep cf ds r) cf := rfl
    rw [hrw]
    exact ih _ (inv_analyzeStep cf ds r h)

/-- The cleaner only touches `dropped_cnt`. -/
theorem cleaner_preserves (lines : List String) (ds : Datastore) :
    (cleaner lines ds).2.charm_severity_cnt = ds.charm_severity_cnt ∧
    (cleaner lines ds).2.message_cnt = ds.message_cnt := by
  induction lines generalizing ds with
  | nil => exact ⟨rfl, rfl⟩
  | cons line rest ih =>
    cases hcl : cleanLine line with
    | none => simpa [cleaner, hcl] using ih _
    | some r =>
      rcases hrec : cleaner rest ds with ⟨rs, ds'⟩
      have hih := ih ds
      rw [hrec] at hih
      simpa [cleaner, hcl, hrec] using hih

/-- Unfold the pair destructuring in `calc_log_stats`. -/
theorem calc_log_stats_eq (lines : List String) (ds : Datastore)
    (cf : Option String) :
    calc_log_stats lines ds cf =
      analyze (cleaner lines ds).1 (cleaner lines ds).2 cf := by
  rcases hrec : cleaner lines ds with ⟨rs, ds'⟩
  simp [calc_log_stats, hrec]

/-- Every charm present in a store reached by running the pipeline has a
total count of at least 1. -/
theorem reachable_charm_total_pos (lines : List String) (cf : Option String)
    (charm : String) (d : List (Severities × Nat))
    (h : (charm, d) ∈ (runPipeline lines cf).charm_severity_cnt) :
    1 ≤ charm_total d := by
  rw [runPipeline, calc_log_stats_eq] at h
  have hbase : ∀ p ∈ ((cleaner lines emptyStore).2).charm_severity_cnt,
      1 ≤ charm_total p.2 := by
    rw [(cleaner_preserves lines emptyStore).1]
    intro p hp
    simp [emptyStore] at hp
  exact inv_analyze _ cf _ hbase (charm, d) h

/-- C4: in every store reachable by running the cleaner and the analyzer
over any input, every charm present in `charm_severity_cnt` has a total
count of at least 1, so the per-charm ratio division in the report never
divides by zero. -/
theorem charm_total_never_zero (lines : List String) (cf : Option String)
    (charm : String) (d : List (Severities × Nat))
    (h : (charm, d) ∈ (runPipeline lines cf).charm_severity_cnt) :
    1 ≤ charm_total d :=
  reachable_charm_total_pos lines cf charm d h

/-- C4 witness: the mysql entry of the example run has a positive total. -/
theorem charm_total_never_zero_witness :
    1 ≤ charm_total [(Severities.INFO, 1), (Severities.WARNING, 2)] :=
  charm_total_never_zero exampleLines none "mysql"
    [(Severities.INFO, 1), (Severities.WARNING, 2)] (by decide)

/-- Dividing each count by `t` and summing gives the summed count over
`t`. -/
theorem sum_map_div (d : List (Severities × Nat)) (t : ℚ) :
    (d.map (fun p => ((p.2 : ℚ) / t))).sum = ((d.map Prod.snd).sum : ℚ) / t := by
  induction d with
  | nil => simp
  | cons p rest ih =>
    simp [ih, add_div]

/-- A severity dict with positive total has ratios summing to 1. -/
theorem sev_ratios_sum_one (d : List (Severities × Nat))
    (h : 1 ≤ charm_total d) :
    ((sev_ratios d).map Prod.snd).sum = 1 := by
  have ht : ((charm_total d : ℚ)) ≠ 0 := by
    have : charm_total d ≠ 0 := by omega
    exact_mod_cast this
  have hmm : (sev_ratios d).map Prod.snd =
      d.map (fun p => ((p.2 : ℚ) / (charm_total d : ℚ))) := by
    simp [sev_ratios]
  rw [hmm, sum_map_div]
  rw [show ((d.map Prod.snd).sum : ℚ) = (charm_total d : ℚ) from rfl]
  exact div_self ht

/-- C5: for every charm in a reachable store, the per-severity ratios
computed by the report sum to exactly 1 in rational arithmetic. -/
theorem reported_ratios_sum_to_one (lines : List String) (cf : Option String)
    (charm : String) (d : List (Severities × Nat))
    (h : (charm, d) ∈ (runPipeline lines cf).charm_severity_cnt) :
    ((sev_ratios d).map Prod.snd).sum = 1 :=
  sev_ratios_sum_one d (reachable_charm_total_pos lines cf charm d h)

/-- C5 witness: the mysql ratios of the example run sum to 1. -/
theorem reported_ratios_sum_to_one_witness :
    ((sev_ratios [(Severities.INFO, 1), (Severities.WARNING, 2)]).map
      Prod.snd).sum = 1 :=
  reported_ratios_sum_to_one exampleLines none "mysql"
    [(Severities.INFO, 1), (Severities.WARNING, 2)] (by decide)

/-- The first element surviving `dropWhile` fails the predicate. -/
theorem dropWhile_head_not {p : Char → Bool} :
    ∀ (l : List Char) (c : Char) (cs : List Char),
      l.dropWhile p = c :: cs → p c = false := by
  intro l
  induction l with
  | nil =>
    intro c cs h
    simp [List.dropWhile] at h
  | cons a l ih =>
    intro c cs h
    rw [List.dropWhile_cons] at h
    by_cases ha : p a
    · rw [if_pos ha] at h
      exact ih c cs h
    · rw [if_neg ha] at h
      injection h with h1 h2
      subst h1
      simpa using ha

/-- Every token produced by the whitespace splitter starts with a
non-whitespace character (so it is nonempty). -/
theorem splitWsAux_tokens :
    ∀ (n : Nat) (cs t : List Char), t ∈ splitWsAux n cs →
      ∃ c ts, t = c :: ts ∧ isPyWs c = false := by
  intro n
  induction n with
  | zero =>
    intro cs t ht
    simp only [splitWsAux] at ht
    cases hd : cs.dropWhile isPyWs with
    | nil =>
      rw [hd] at ht
      simp at ht
    | cons c ts =>
      rw [hd] at ht
      simp at ht
      exact ⟨c, ts, ht, dropWhile_head_not cs c ts hd⟩
  | succ n ih =>
    intro cs t ht
    simp only [splitWsAux] at ht
    cases hd : cs.dropWhile isPyWs with
    | nil =>
      rw [hd] at ht
      simp at ht
    | cons c ts =>
      rw [hd] at ht
      simp at ht
      rcases ht with ht | ht
      · have hc : isPyWs c = false := dropWhile_head_not cs c ts hd
        rw [List.takeWhile_cons] at ht
        rw [if_pos (by simp [hc])] at ht
        exact ⟨c, _, ht, hc⟩
      · exact ih _ t ht

/-- Stripping a string whose first character is non-whitespace yields a
nonempty string. -/
theorem pyStrip_cons_ne_empty (c : Char) (ts : List Char)
    (hc : isPyWs c = false) : pyStrip (String.mk (c :: ts)) ≠ "" := by
  intro habs
  have hdata : dropWhileRight isPyWs ((c :: ts).dropWhile isPyWs) = [] :=
    congrArg String.data habs
  rw [List.dropWhile_cons, if_neg (by simp [hc])] at hdata
  have hrev : ((c :: ts).reverse.dropWhile isPyWs) = [] := by
    have := congrArg List.reverse hdata
    simpa [dropWhileRight] using this
  have hall := List.dropWhile_eq_nil_iff.mp hrev c (by simp)
  rw [hc] at hall
  exact Bool.false_ne_true hall

/-- C10: every record emitted by the cleaner has a nonempty message:
the trimmed fourth field is never the empty string. -/
theorem emitted_message_nonempty (line : String) (r : LogRecord)
    (h : cleanLine line = some r) : r.2.2 ≠ "" := by
  simp only [cleanLine] at h
  by_cases h1 : (pySplitWs line 3).length < 4
  · rw [if_pos h1] at h
    exact absurd h (by simp)
  · rw [if_neg h1] at h
    by_cases h2 : 3 ≤ (splitDash ((pySplitWs line 3).getD 0 "")).length ∧
        (splitDash ((pySplitWs line 3).getD 0 "")).getD 0 "" = "unit"
    · rw [if_pos h2] at h
      obtain rfl := Option.some.inj h
      show pyStrip ((pySplitWs line 3).getD 3 "") ≠ ""
      have hlen : 3 < (pySplitWs line 3).length := by omega
      have hlen2 : 3 < (splitWsAux 3 line.data).length := by
        simpa [pySplitWs] using hlen
      have hgd : (pySplitWs line 3).getD 3 "" =
          String.mk ((splitWsAux 3 line.data).get ⟨3, hlen2⟩) := by
        rw [List.getD_eq_getElem _ _ hlen]
        simp [pySplitWs]
      obtain ⟨c, ts, htok, hc⟩ := splitWsAux_tokens 3 line.data
        ((splitWsAux 3 line.data).get ⟨3, hlen2⟩)
        (List.get_mem _ _ hlen2)
      rw [hgd, htok]
      exact pyStrip_cons_ne_empty c ts hc
    · rw [if_neg h2] at h
      exact absurd h (by simp)

/-- C10 witness: the first example line's emitted message is nonempty. -/
theorem emitted_message_nonempty_witness :
    (("mysql", "INFO", "starting up") : LogRecord).2.2 ≠ "" :=
  emitted_message_nonempty "unit-mysql-0 2024-01-01T00:00:00 INFO starting up"
    ("mysql", "INFO", "starting up") (by decide)

end Logstats
